import Mathlib

/-!
Shallow embedding of the zarr-cache cache/eviction engine, with theorems
checking the natural-language specification against the code.

Embedded source files:
* `zarr_cache/index.py` / `zarr_cache/indexes.py` — `MemoryStoreIndex`,
  an insertion-ordered `(store_id, key) -> size` registry backed by a
  Python `OrderedDict`.
* `zarr_cache/storage.py` — `IndexedCacheStorage` (the index-driven cache
  storage) and `TimingCacheStorage` (the timing decorator).
  `DefaultStoreCache` in `zarr_cache/_cache.py` is the same implementation
  modulo the optional `value_size` parameter, so it shares this embedding.
* `zarr_cache/_store.py` — `CachedStore`, the per-tenant read/write-through
  facade.

Modelling conventions: Python `OrderedDict`/`dict` instances become
association lists kept in insertion order (head = least recently
inserted); Python `int` sums become `Int`; byte sizes become `Nat`;
values become lists of bytes (`List Nat`) whose `buffer_size` is the list
length; operations that can raise return an `Option`/success flag, with
the state carrying all mutations performed before the raise.
-/

/-- Key of one index entry: a `(store_id, key)` pair. -/
abbrev IdxKey := String × String

/-- The `OrderedDict` holding the index entries, as a list in insertion
order: the head is the least recently inserted/marked entry, the last
element the most recently inserted/marked one. -/
abbrev IdxEntries := List (IdxKey × Nat)

/-- Lookup in an insertion-ordered dictionary (Python `dict` /
`OrderedDict` access and containment). -/
def dictLookup {κ α : Type} [DecidableEq κ] : List (κ × α) → κ → Option α
  | [], _ => none
  | (k', v) :: rest, k => if k' = k then some v else dictLookup rest k

/-- `__setitem__` of a Python `dict` / `OrderedDict`: overwrite the value
in place if the key is present (Python keeps the original position),
otherwise append at the most recently inserted end. -/
def dictSet {κ α : Type} [DecidableEq κ] : List (κ × α) → κ → α → List (κ × α)
  | [], k, v => [(k, v)]
  | (k', v') :: rest, k, v =>
      if k' = k then (k, v) :: rest else (k', v') :: dictSet rest k v

/-- `__delitem__` of a Python `dict` / `OrderedDict`: remove the entry
with the given key (the first occurrence, were the list ill-formed). -/
def dictRemove {κ α : Type} [DecidableEq κ] : List (κ × α) → κ → List (κ × α)
  | [], _ => []
  | (k', v') :: rest, k => if k' = k then rest else (k', v') :: dictRemove rest k

/-- `MemoryStoreIndex` from `zarr_cache/index.py` (identical in
`zarr_cache/indexes.py`). -/
structure MemoryStoreIndex where
  is_lifo : Bool
  max_size : Option Int
  current_size : Int
  entries : IdxEntries
deriving Repr, DecidableEq

/-- `MemoryStoreIndex.__init__`: fresh index with the given policy flag
and optional ceiling. -/
def MemoryStoreIndex.empty (l : Bool) (m : Option Int) : MemoryStoreIndex :=
  ⟨l, m, 0, []⟩

/-- `MemoryStoreIndex.push_key`: `self._entries[(store_id, key)] = size;
self._current_size += size`. -/
def pushKey (idx : MemoryStoreIndex) (sid key : String) (size : Nat) :
    MemoryStoreIndex :=
  { idx with
    entries := dictSet idx.entries (sid, key) size
    current_size := idx.current_size + (size : Int) }

/-- `MemoryStoreIndex.pop_key`: `self._entries.popitem(last=not self._is_lifo)`,
so `is_lifo = true` removes the FIRST (least recently inserted/marked)
entry and `is_lifo = false` removes the LAST one; `none` models the
`KeyError` raised on an empty `OrderedDict`. -/
def popKey (idx : MemoryStoreIndex) :
    Option ((String × String × Nat) × MemoryStoreIndex) :=
  if idx.is_lifo then
    match idx.entries with
    | [] => none
    | ((sid, key), size) :: rest =>
        some ((sid, key, size),
          { idx with entries := rest
                     current_size := idx.current_size - (size : Int) })
  else
    match idx.entries.getLast? with
    | none => none
    | some ((sid, key), size) =>
        some ((sid, key, size),
          { idx with entries := idx.entries.dropLast
                     current_size := idx.current_size - (size : Int) })

/-- `MemoryStoreIndex.mark_key`: if present,
`self._entries.move_to_end(k, last=self._is_lifo)` — to the back for
`is_lifo = true`, to the front for `is_lifo = false`; no-op otherwise. -/
def markKey (idx : MemoryStoreIndex) (sid key : String) : MemoryStoreIndex :=
  match dictLookup idx.entries (sid, key) with
  | none => idx
  | some size =>
      let rest := dictRemove idx.entries (sid, key)
      { idx with
        entries :=
          if idx.is_lifo then rest ++ [((sid, key), size)]
          else ((sid, key), size) :: rest }

/-- `MemoryStoreIndex.delete_key`: remove the entry if present, subtract
its size and return it; return 0 if absent. -/
def deleteKey (idx : MemoryStoreIndex) (sid key : String) :
    Nat × MemoryStoreIndex :=
  match dictLookup idx.entries (sid, key) with
  | some size =>
      (size, { idx with entries := dictRemove idx.entries (sid, key)
                        current_size := idx.current_size - (size : Int) })
  | none => (0, idx)

/-- `MemoryStoreIndex.delete_store`: collect the keys of the store, then
delete them one by one via `delete_key`, summing the returned sizes. -/
def deleteStoreIdx (idx : MemoryStoreIndex) (sid : String) :
    Nat × MemoryStoreIndex :=
  let ks := (idx.entries.filter (fun e => e.1.1 = sid)).map Prod.fst
  ks.foldl
    (fun acc k =>
      let r := deleteKey acc.2 k.1 k.2
      (acc.1 + r.1, r.2))
    (0, idx)

/-- Pop up to `n` entries in sequence, collecting the returned triples
(stopping early if `pop_key` underflows). -/
def popList : MemoryStoreIndex → Nat → List (String × String × Nat)
  | _, 0 => []
  | idx, n + 1 =>
      match popKey idx with
      | none => []
      | some (e, idx') => e :: popList idx' n

/-- The index resulting from pushing `(s1,k1,100)`, `(s1,k2,130)`,
`(s1,k3,120)` onto a fresh unbounded index with the given policy flag. -/
def threePushIndex (l : Bool) : MemoryStoreIndex :=
  pushKey (pushKey (pushKey (MemoryStoreIndex.empty l none)
    "s1" ("k1") 100) "s1" ("k2") 130) "s1" ("k3") 120

/-- The index resulting from pushing `(s2,k1,260)`, `(s2,k2,220)`,
`(s2,k3,210)` onto a fresh unbounded index and then marking `(s2,k2)`. -/
def markedDemoIndex (l : Bool) : MemoryStoreIndex :=
  markKey (pushKey (pushKey (pushKey (MemoryStoreIndex.empty l none)
    "s2" ("k1") 260) "s2" ("k2") 220) "s2" ("k3") 210) "s2" ("k2")

/-- The index resulting from pushing `(s1,k1,1)`, `(s1,k2,2)` and then
re-pushing the already-present `(s1,k1)` with size 3. -/
def repushDemoIndex : MemoryStoreIndex :=
  pushKey (pushKey (pushKey (MemoryStoreIndex.empty true none)
    "s1" ("k1") 1) "s1" ("k2") 2) "s1" ("k1") 3

/-- One operation of the Store Index interface (for claim sequences). -/
inductive IndexOp where
  | push (sid key : String) (size : Nat)
  | pop
  | delete (sid key : String)
  | deleteStore (sid : String)
deriving Repr, DecidableEq

/-- Apply one index operation. A `pop` on an empty index (which raises in
Python) is left as the identity here; runs containing one are excluded by
`goodRun` below. -/
def runIndexOp (idx : MemoryStoreIndex) : IndexOp → MemoryStoreIndex
  | .push sid key size => pushKey idx sid key size
  | .pop =>
      match popKey idx with
      | none => idx
      | some (_, idx') => idx'
  | .delete sid key => (deleteKey idx sid key).2
  | .deleteStore sid => (deleteStoreIdx idx sid).2

/-- Apply a sequence of index operations from the left. -/
def runIndexOps (idx : MemoryStoreIndex) : List IndexOp → MemoryStoreIndex
  | [] => idx
  | op :: ops => runIndexOps (runIndexOp idx op) ops

/-- Precondition under which one operation matches the Python run without
raising or hitting the re-push sharp edge: a `pop` needs a nonempty index
and a `push` must target an absent `(store_id, key)`. -/
def indexOpOk (idx : MemoryStoreIndex) : IndexOp → Bool
  | .push sid key _ => (dictLookup idx.entries (sid, key)).isNone
  | .pop => !idx.entries.isEmpty
  | .delete _ _ => true
  | .deleteStore _ => true

/-- A run is good when every operation satisfies `indexOpOk` in the state
it executes in. -/
def goodRun (idx : MemoryStoreIndex) : List IndexOp → Bool
  | [] => true
  | op :: ops => indexOpOk idx op && goodRun (runIndexOp idx op) ops

/-- Sum of the sizes of the entries currently present in the index. -/
def entrySum (l : IdxEntries) : Int := (l.map (fun e => (e.2 : Int))).sum

/-- The size invariant: the running total equals the sum of the sizes of
the entries currently present. -/
def sizeInv (idx : MemoryStoreIndex) : Prop :=
  idx.current_size = entrySum idx.entries

/-- `TimingCacheStorage._update_stats`: reads the stored 3-tuple as
`size_sum, time_sum, count` and stores
`(size_sum + size_delta, time_sum + time_delta, count + 1)`. -/
def updateStats (s : Rat × Rat × Nat) (size_delta time_delta : Rat) :
    Rat × Rat × Nat :=
  let (size_sum, time_sum, count) := s
  (size_sum + size_delta, time_sum + time_delta, count + 1)

/-- `TimingCacheStorage._get_stats`: reads the stored 3-tuple as
`time_sum, size_sum, count` (note: the opposite order of
`_update_stats`) and exposes
`(size_sum/count, time_sum/count, size_sum/time_sum, count)` under those
readings, with float NaN modelled as `none`. -/
def getStats (s : Rat × Rat × Nat) : Option Rat × Option Rat × Option Rat × Nat :=
  let (time_sum, size_sum, count) := s
  (if count > 0 then some (size_sum / (count : Rat)) else none,
   if count > 0 then some (time_sum / (count : Rat)) else none,
   if time_sum > 0 then some (size_sum / time_sum) else none,
   count)

/-- Stats state of one operation kind after a list of
`(size_delta, time_delta)` measurements, starting from the constructor's
`(0, 0, 0)`. -/
def foldStats (events : List (Rat × Rat)) : Rat × Rat × Nat :=
  events.foldl (fun s e => updateStats s e.1 e.2) (0, 0, 0)

/-- Cached value: an opaque byte sequence. `zarr.storage.buffer_size` of a
value is modelled as its length. -/
abbrev Value := List Nat

/-- One opened backing store: its key-value contents plus a closed flag.
Modelled from the spec: the helper `close_store` in `zarr_cache/util.py`
is absent from `src/`; per the spec's duck-typed closable-resource
contract it invokes the store's optional `close()`, modelled here as
setting the `closed` flag (as the `ClosableStore` test double does). -/
structure BackingStore where
  contents : List (String × Value)
  closed : Bool
deriving Repr, DecidableEq

/-- A fresh backing store as returned by `MemoryStoreOpener` (an empty
`dict`, open). -/
def freshStore : BackingStore := ⟨[], false⟩

/-- `IndexedCacheStorage` from `zarr_cache/storage.py` (and likewise
`DefaultStoreCache` from `zarr_cache/_cache.py`): a store index, the
table of opened backing stores, and the cached copy of the index's
`max_size` fetched at construction. -/
structure IndexedCacheStorage where
  store_index : MemoryStoreIndex
  open_stores : List (String × BackingStore)
  max_size : Option Int
deriving Repr, DecidableEq

/-- `IndexedCacheStorage.__init__` (with the in-memory store opener). -/
def IndexedCacheStorage.init (idx : MemoryStoreIndex) : IndexedCacheStorage :=
  ⟨idx, [], idx.max_size⟩

/-- `IndexedCacheStorage._get_or_open_store`: reuse the opened handle, or
open (here: create fresh and empty, as `MemoryStoreOpener` does) and
remember it. -/
def getOrOpenStore (st : IndexedCacheStorage) (sid : String) :
    IndexedCacheStorage × BackingStore :=
  match dictLookup st.open_stores sid with
  | some s => (st, s)
  | none =>
      ({ st with open_stores := dictSet st.open_stores sid freshStore }, freshStore)

/-- Mutate the opened backing store object for `sid` in place (Python
aliasing: the local `store` variable and the handle-table entry are the
same object). -/
def updateStore (st : IndexedCacheStorage) (sid : String)
    (f : BackingStore → BackingStore) : IndexedCacheStorage :=
  match dictLookup st.open_stores sid with
  | some s => { st with open_stores := dictSet st.open_stores sid (f s) }
  | none => st

/-- `IndexedCacheStorage.has_value`. -/
def hasValueICS (st : IndexedCacheStorage) (sid key : String) :
    Bool × IndexedCacheStorage :=
  let r := getOrOpenStore st sid
  ((dictLookup r.2.contents key).isSome, r.1)

/-- `IndexedCacheStorage.get_value`: `none` models the `KeyError` on a
missing key; on success the key is marked as recently used. -/
def getValueICS (st : IndexedCacheStorage) (sid key : String) :
    Option Value × IndexedCacheStorage :=
  let r := getOrOpenStore st sid
  match dictLookup r.2.contents key with
  | none => (none, r.1)
  | some v =>
      (some v, { r.1 with store_index := markKey r.1.store_index sid key })

/-- The `while` loop of `IndexedCacheStorage._accommodate_space`. `cur` is
the loop's local running copy of `current_size` (only decremented when the
backing-store delete succeeded); the fuel is the number of index entries,
enough for every Python execution since each iteration pops one entry.
The `false` flag models the `KeyError` a `pop_key` underflow raises. -/
def accommodateLoop : Nat → IndexedCacheStorage → Int → Int → Int →
    IndexedCacheStorage × Bool
  | 0, st, cur, new_size, m =>
    if cur + new_size ≤ m then (st, true) else (st, false)
  | fuel' + 1, st, cur, new_size, m =>
    if cur + new_size ≤ m then (st, true)
    else
      match popKey st.store_index with
      | none => (st, false)
      | some ((sid, key, size), idx') =>
        let st1 := { st with store_index := idx' }
        let r := getOrOpenStore st1 sid
        if (dictLookup r.2.contents key).isSome then
          accommodateLoop fuel'
            (updateStore r.1 sid
              (fun b => { b with contents := dictRemove b.contents key }))
            (cur - (size : Int)) new_size m
        else
          accommodateLoop fuel' r.1 cur new_size m

/-- `IndexedCacheStorage._accommodate_space`. -/
def accommodateSpace (st : IndexedCacheStorage) (new_size : Int) :
    IndexedCacheStorage × Bool :=
  match st.max_size with
  | none => (st, true)
  | some m =>
      accommodateLoop st.store_index.entries.length st
        st.store_index.current_size new_size m

/-- `IndexedCacheStorage.put_value`: compute the value size if not
supplied; skip entirely when a maximum is configured and the size exceeds
it; otherwise accommodate space, write into the backing store and push
the index entry. The flag is `false` when the accommodation loop raised
(the state then carries all mutations made before the raise). -/
def putValueICS (st : IndexedCacheStorage) (sid key : String) (v : Value)
    (value_size : Option Nat) : IndexedCacheStorage × Bool :=
  let vszn : Nat := value_size.getD v.length
  let body := fun (st0 : IndexedCacheStorage) =>
    let r := accommodateSpace st0 (vszn : Int)
    if r.2 then
      let r2 := getOrOpenStore r.1 sid
      let st2 := updateStore r2.1 sid
        (fun b => { b with contents := dictSet b.contents key v })
      ({ st2 with store_index := pushKey st2.store_index sid key vszn }, true)
    else (r.1, false)
  match st.max_size with
  | some m => if (vszn : Int) ≤ m then body st else (st, true)
  | none => body st

/-- `IndexedCacheStorage.delete_value`: remove the key from the backing
store if present, and unconditionally delete the index entry. -/
def deleteValueICS (st : IndexedCacheStorage) (sid key : String) :
    Bool × IndexedCacheStorage :=
  let r := getOrOpenStore st sid
  let present := (dictLookup r.2.contents key).isSome
  let st2 :=
    if present then
      updateStore r.1 sid (fun b => { b with contents := dictRemove b.contents key })
    else r.1
  (present, { st2 with store_index := (deleteKey st2.store_index sid key).2 })

/-- `IndexedCacheStorage.delete_store` (and `DefaultStoreCache.clear_store`):
open (or reuse) the handle, then `try: store.clear(); index.delete_store
finally: close_store(store)`. `clearOk = false` models `store.clear()`
raising: the index is not touched, the `finally` still closes the handle,
and the exception propagates (flag `false`). -/
def deleteStoreICS (st : IndexedCacheStorage) (sid : String) (clearOk : Bool) :
    IndexedCacheStorage × Bool :=
  let st1 := (getOrOpenStore st sid).1
  if clearOk then
    let st2 := updateStore st1 sid (fun b => { b with contents := [] })
    let st3 := { st2 with store_index := (deleteStoreIdx st2.store_index sid).2 }
    (updateStore st3 sid (fun b => { b with closed := true }), true)
  else
    (updateStore st1 sid (fun b => { b with closed := true }), false)

/-- `IndexedCacheStorage.close_store`: drop the handle-table entry (if
any) and close the removed object. -/
def closeStoreICS (st : IndexedCacheStorage) (sid : String) :
    IndexedCacheStorage :=
  match dictLookup st.open_stores sid with
  | some _ => { st with open_stores := dictRemove st.open_stores sid }
  | none => st

/-- One value-level operation on an index-driven Cache Storage. -/
inductive CacheOp where
  | has (sid key : String)
  | get (sid key : String)
  | put (sid key : String) (v : Value) (value_size : Option Nat)
  | del (sid key : String)
deriving Repr

/-- Apply one cache-storage operation; `none` when a `put_value` did not
return normally (accommodation underflow). -/
def runCacheOp (st : IndexedCacheStorage) : CacheOp → Option IndexedCacheStorage
  | .has sid key => some (hasValueICS st sid key).2
  | .get sid key => some (getValueICS st sid key).2
  | .put sid key v vsz =>
      let r := putValueICS st sid key v vsz
      if r.2 then some r.1 else none
  | .del sid key => some (deleteValueICS st sid key).2

/-- Apply a sequence of cache-storage operations, failing as soon as a
`put_value` does. -/
def runCacheOps (st : IndexedCacheStorage) : List CacheOp → Option IndexedCacheStorage
  | [] => some st
  | op :: ops =>
      match runCacheOp st op with
      | none => none
      | some st' => runCacheOps st' ops

/-- `CachedStore` from `zarr_cache/_store.py`. The origin store is an
association list; `origin_reads` logs every `self._store[key]` access so
the number of origin fetches is observable. `cached_keys` is the memoized
key-set snapshot. Latency sums are wall-clock instrumentation and are not
modelled. -/
structure CachedStore where
  origin : List (String × Value)
  origin_reads : List String
  store_id : String
  cache : IndexedCacheStorage
  item_filter : Option (String → Value → Bool)
  cached_keys : Option (List String)
  hit_count : Nat
  miss_count : Nat

/-- `CachedStore._keys` / `keys()`: memoize the origin's key set on first
use, reuse the snapshot afterwards. -/
def keysCS (st : CachedStore) : List String × CachedStore :=
  match st.cached_keys with
  | some ks => (ks, st)
  | none =>
      let ks := st.origin.map Prod.fst
      (ks, { st with cached_keys := some ks })

/-- `CachedStore.__getitem__`: try the cache first (hit path marks and
counts); on a cache miss fetch from the origin, count the miss, consult
the admission filter if configured (fetching a second time from the
origin when it is not), cache when admitted, and invalidate the key-set
snapshot on a cache write. `none` models a propagated exception. -/
def getItemCS (st : CachedStore) (key : String) : Option Value × CachedStore :=
  match getValueICS st.cache st.store_id key with
  | (some v, c1) =>
      (some v, { st with cache := c1, hit_count := st.hit_count + 1 })
  | (none, c1) =>
      let st2 := { st with cache := c1, origin_reads := st.origin_reads ++ [key] }
      match dictLookup st2.origin key with
      | none => (none, st2)
      | some v =>
          let st3 := { st2 with miss_count := st2.miss_count + 1 }
          match st3.item_filter with
          | some f =>
              if f key v then
                let r := putValueICS st3.cache st3.store_id key v none
                if r.2 then (some v, { st3 with cache := r.1, cached_keys := none })
                else (none, { st3 with cache := r.1 })
              else (some v, st3)
          | none =>
              let st4 := { st3 with origin_reads := st3.origin_reads ++ [key] }
              match dictLookup st4.origin key with
              | none => (none, st4)
              | some v2 =>
                  let r := putValueICS st4.cache st4.store_id key v2 none
                  if r.2 then (some v2, { st4 with cache := r.1, cached_keys := none })
                  else (none, { st4 with cache := r.1 })

/-- `CachedStore.__setitem__`: always write to the origin; write to the
cache storage only if the key is already cached there, invalidating the
key-set snapshot only in that case. The flag is `false` when the cache
write raised. -/
def setItemCS (st : CachedStore) (key : String) (v : Value) :
    CachedStore × Bool :=
  let st1 := { st with origin := dictSet st.origin key v }
  let r := hasValueICS st1.cache st1.store_id key
  let st2 := { st1 with cache := r.2 }
  if r.1 then
    let p := putValueICS st2.cache st2.store_id key v none
    if p.2 then ({ st2 with cache := p.1, cached_keys := none }, true)
    else ({ st2 with cache := p.1 }, false)
  else (st2, true)

/-- `CachedStore.__delitem__`: delete from the origin (a missing key
raises `KeyError`, flag `false`, nothing else happens), then delete from
the cache storage and invalidate the snapshot. -/
def delItemCS (st : CachedStore) (key : String) : CachedStore × Bool :=
  match dictLookup st.origin key with
  | none => (st, false)
  | some _ =>
      let st1 := { st with origin := dictRemove st.origin key }
      let r := deleteValueICS st1.cache st1.store_id key
      ({ st1 with cache := r.2, cached_keys := none }, true)

/-- `CachedStore.clear`: clear the origin, then `clear_store` the tenant's
cache entry (same code as `delete_store`), and invalidate the snapshot if
that returned normally. -/
def clearCS (st : CachedStore) (clearOk : Bool) : CachedStore × Bool :=
  let st1 := { st with origin := [] }
  let r := deleteStoreICS st1.cache st1.store_id clearOk
  if r.2 then ({ st1 with cache := r.1, cached_keys := none }, true)
  else ({ st1 with cache := r.1 }, false)

/-- A fresh, unbounded index-driven cache storage. -/
def freshCache : IndexedCacheStorage :=
  IndexedCacheStorage.init (MemoryStoreIndex.empty true none)

/-- A `CachedStore` over origin `{"a" ↦ [0]}` with a fresh cache, no
admission filter and no memoized snapshot. -/
def staleKeysDemo : CachedStore :=
  ⟨[("a", [0])], [], "s", freshCache, none, none, 0, 0⟩

/-- A `CachedStore` whose key `a` is present both in the origin and in
the cache storage (with a matching index entry), no admission filter. -/
def cachedKeyDemo : CachedStore :=
  ⟨[("a", [0])], [], "s",
   ⟨⟨true, none, 1, [(("s", "a"), 1)]⟩, [("s", ⟨[("a", [0])], false⟩)], none⟩,
   none, none, 0, 0⟩

/-- A short operation sequence on a budgeted cache storage that forces
one eviction: two 3-byte puts under a budget of 5, a get and a delete. -/
def budgetDemoOps : List CacheOp :=
  [CacheOp.put ("s") "k1" [0, 0, 0] none,
   CacheOp.put ("s") "k2" [0, 0, 0] none,
   CacheOp.get ("s") "k2",
   CacheOp.del ("s") "k1"]

/-- A cache storage holding index entries for two stores and one opened
backing store, used to exercise `delete_store`. -/
def deleteStoreDemo : IndexedCacheStorage :=
  ⟨⟨true, none, 7, [(("s", "a"), 3), (("t", "b"), 4)]⟩,
   [("s", ⟨[("a", [0, 0, 0])], false⟩)], none⟩

/-! ## Lemmas about the dictionary model -/

theorem dictLookup_eq_none_iff {κ α : Type} [DecidableEq κ] (l : List (κ × α)) (k : κ) :
    dictLookup l k = none ↔ k ∉ l.map Prod.fst := by
  induction l with
  | nil => simp [dictLookup]
  | cons e rest ih =>
      obtain ⟨k', v⟩ := e
      by_cases h : k' = k
      · subst h; simp [dictLookup]
      · simp [dictLookup, h, ih, Ne.symm h]

theorem dictSet_of_absent {κ α : Type} [DecidableEq κ] {l : List (κ × α)} {k : κ}
    (h : dictLookup l k = none) (v : α) : dictSet l k v = l ++ [(k, v)] := by
  induction l with
  | nil => rfl
  | cons e rest ih =>
      obtain ⟨k', v'⟩ := e
      by_cases hk : k' = k
      · simp [dictLookup, hk] at h
      · simp only [dictLookup, hk, if_false, ite_false] at h ⊢
        simp [dictSet, hk, ih h]

theorem map_replace_of_absent {κ α : Type} [DecidableEq κ] {l : List (κ × α)} {k : κ}
    (h : k ∉ l.map Prod.fst) (v : α) :
    l.map (fun e => if e.1 = k then (k, v) else e) = l := by
  induction l with
  | nil => rfl
  | cons e rest ih =>
      simp only [List.map_cons, List.mem_cons, not_or] at h
      simp only [List.map_cons]
      rw [if_neg (fun hh => h.1 hh.symm), ih h.2]

theorem dictSet_of_present {κ α : Type} [DecidableEq κ] {l : List (κ × α)} {k : κ} {w : α}
    (hnd : (l.map Prod.fst).Nodup) (h : dictLookup l k = some w) (v : α) :
    dictSet l k v = l.map (fun e => if e.1 = k then (k, v) else e) := by
  induction l with
  | nil => simp [dictLookup] at h
  | cons e rest ih =>
      obtain ⟨k', v'⟩ := e
      rw [List.map_cons, List.nodup_cons] at hnd
      by_cases hk : k' = k
      · subst hk
        have hr := map_replace_of_absent hnd.1 v
        simp [dictSet, hr]
      · simp only [dictLookup, if_neg hk] at h
        simp [dictSet, hk, ih hnd.2 h]

theorem dictRemove_of_absent {κ α : Type} [DecidableEq κ] {l : List (κ × α)} {k : κ}
    (h : dictLookup l k = none) : dictRemove l k = l := by
  induction l with
  | nil => rfl
  | cons e rest ih =>
      obtain ⟨k', v'⟩ := e
      by_cases hk : k' = k
      · simp [dictLookup, hk] at h
      · simp only [dictLookup, hk, if_false, ite_false] at h
        simp [dictRemove, hk, ih h]

theorem entrySum_nil : entrySum [] = 0 := rfl

theorem entrySum_cons (e : IdxKey × Nat) (l : IdxEntries) :
    entrySum (e :: l) = (e.2 : Int) + entrySum l := by
  simp [entrySum]

theorem entrySum_append (l₁ l₂ : IdxEntries) :
    entrySum (l₁ ++ l₂) = entrySum l₁ + entrySum l₂ := by
  simp [entrySum]

theorem entrySum_dictRemove {l : IdxEntries} {k : IdxKey} {v : Nat}
    (h : dictLookup l k = some v) :
    entrySum (dictRemove l k) = entrySum l - (v : Int) := by
  induction l with
  | nil => simp [dictLookup] at h
  | cons e rest ih =>
      obtain ⟨k', v'⟩ := e
      by_cases hk : k' = k
      · simp only [dictLookup, if_pos hk, Option.some_inj] at h
        subst h
        simp only [dictRemove, if_pos hk]
        rw [entrySum_cons]
        ring
      · simp only [dictLookup, if_neg hk] at h
        simp only [dictRemove, if_neg hk]
        rw [entrySum_cons, entrySum_cons, ih h]
        ring

theorem entrySum_dropLast {l : IdxEntries} {e : IdxKey × Nat}
    (h : l.getLast? = some e) :
    entrySum l.dropLast = entrySum l - (e.2 : Int) := by
  have hl : l.dropLast ++ [e] = l :=
    List.dropLast_append_getLast? e (Option.mem_def.2 h)
  have : entrySum (l.dropLast ++ [e]) = entrySum l.dropLast + (e.2 : Int) := by
    rw [entrySum_append, entrySum_cons, entrySum_nil]; ring
  rw [hl] at this
  omega

/-! ## The Store Index size invariant (claim about push/pop/delete runs) -/

theorem popKey_sizes {idx : MemoryStoreIndex} {e : String × String × Nat}
    {idx' : MemoryStoreIndex} (h : popKey idx = some (e, idx')) :
    idx'.current_size = idx.current_size - (e.2.2 : Int) ∧
    entrySum idx'.entries = entrySum idx.entries - (e.2.2 : Int) := by
  unfold popKey at h
  split at h
  · split at h
    · exact absurd h (by simp)
    · rename_i sid key size rest heq
      injection h with h'
      obtain ⟨rfl, rfl⟩ := Prod.mk.injEq .. ▸ h'
      refine ⟨by simp, ?_⟩
      rw [heq, entrySum_cons]
      ring
  · split at h
    · exact absurd h (by simp)
    · rename_i sid key size heq
      injection h with h'
      obtain ⟨rfl, rfl⟩ := Prod.mk.injEq .. ▸ h'
      exact ⟨by simp, entrySum_dropLast heq⟩

theorem sizeInv_deleteKey {idx : MemoryStoreIndex} (sid key : String)
    (hinv : sizeInv idx) : sizeInv (deleteKey idx sid key).2 := by
  unfold sizeInv at *
  unfold deleteKey
  cases h : dictLookup idx.entries (sid, key) with
  | none => exact hinv
  | some v => simp [entrySum_dictRemove h, hinv]

theorem sizeInv_foldlDelete (ks : List IdxKey) :
    ∀ acc : Nat × MemoryStoreIndex, sizeInv acc.2 →
    sizeInv ((ks.foldl (fun acc k =>
      let r := deleteKey acc.2 k.1 k.2
      (acc.1 + r.1, r.2)) acc)).2 := by
  induction ks with
  | nil => exact fun acc h => h
  | cons k rest ih =>
      intro acc h
      simp only [List.foldl_cons]
      exact ih _ (sizeInv_deleteKey k.1 k.2 h)

theorem sizeInv_deleteStoreIdx {idx : MemoryStoreIndex} (sid : String)
    (hinv : sizeInv idx) : sizeInv (deleteStoreIdx idx sid).2 :=
  sizeInv_foldlDelete _ (0, idx) hinv

theorem sizeInv_runIndexOp {idx : MemoryStoreIndex} {op : IndexOp}
    (hinv : sizeInv idx) (hok : indexOpOk idx op = true) :
    sizeInv (runIndexOp idx op) := by
  cases op with
  | push sid key size =>
      simp only [indexOpOk, Option.isNone_iff_eq_none] at hok
      unfold sizeInv at *
      simp only [runIndexOp, pushKey, dictSet_of_absent hok size]
      rw [entrySum_append, entrySum_cons, entrySum_nil, hinv]
      ring
  | pop =>
      unfold sizeInv at *
      unfold runIndexOp
      cases h : popKey idx with
      | none => exact hinv
      | some r =>
          obtain ⟨e, idx'⟩ := r
          obtain ⟨h1, h2⟩ := popKey_sizes h
          simpa [h1, h2] using by omega
  | delete sid key => exact sizeInv_deleteKey sid key hinv
  | deleteStore sid => exact sizeInv_deleteStoreIdx sid hinv

theorem goodRun_append_left {ops₁ ops₂ : List IndexOp} :
    ∀ {idx : MemoryStoreIndex}, goodRun idx (ops₁ ++ ops₂) = true →
    goodRun idx ops₁ = true := by
  induction ops₁ with
  | nil => intro idx _; rfl
  | cons op rest ih =>
      intro idx h
      simp only [List.cons_append, goodRun, Bool.and_eq_true] at h ⊢
      exact ⟨h.1, ih h.2⟩

theorem sizeInv_runIndexOps {ops : List IndexOp} :
    ∀ {idx : MemoryStoreIndex}, sizeInv idx → goodRun idx ops = true →
    sizeInv (runIndexOps idx ops) := by
  induction ops with
  | nil => intro idx h _; exact h
  | cons op rest ih =>
      intro idx h hg
      simp only [goodRun, Bool.and_eq_true] at hg
      exact ih (sizeInv_runIndexOp h hg.1) hg.2

/-! ## Claim theorems for the Store Index -/

/-- C1 counterexample: on a fresh index configured FIFO (`is_lifo=False`),
pushing `(s1,k1,100)`, `(s1,k2,130)`, `(s1,k3,120)` and popping three
times yields `k3, k2, k1` — not `k1, k2, k3` as the claim states (the
claim's LIFO/FIFO outcomes are exactly swapped relative to the code and
its own test suite, `tests/test_index.py`). -/
theorem pop_key_order_counterexample :
    popList (threePushIndex false) 3 =
      [("s1", "k3", 120), ("s1", "k2", 130), ("s1", "k1", 100)] ∧
    ¬ (popList (threePushIndex false) 3 =
        [("s1", "k1", 100), ("s1", "k2", 130), ("s1", "k3", 120)] ∧
       popList (threePushIndex true) 3 =
        [("s1", "k3", 120), ("s1", "k2", 130), ("s1", "k1", 100)]) := by
  decide

/-- C1 (amended): `pop_key` removes the LEAST recently pushed/marked entry
when the index is configured `is_lifo=True` and the MOST recently
pushed/marked entry when configured FIFO (`is_lifo=False`) — the head
resp. the last element of the insertion-ordered entry list; concretely,
the three pushes on a fresh FIFO index pop as `k3, k2, k1` and on a fresh
LIFO index as `k1, k2, k3`. -/
theorem pop_key_order_amended (idx : MemoryStoreIndex) :
    (popKey idx).map Prod.fst =
      (if idx.is_lifo then idx.entries.head? else idx.entries.getLast?).map
        (fun e => (e.1.1, e.1.2, e.2)) ∧
    popList (threePushIndex false) 3 =
      [("s1", "k3", 120), ("s1", "k2", 130), ("s1", "k1", 100)] ∧
    popList (threePushIndex true) 3 =
      [("s1", "k1", 100), ("s1", "k2", 130), ("s1", "k3", 120)] := by
  refine ⟨?_, by decide, by decide⟩
  unfold popKey
  by_cases hl : idx.is_lifo
  · rw [if_pos hl, if_pos hl]
    cases idx.entries with
    | nil => rfl
    | cons e rest => obtain ⟨⟨sid, key⟩, size⟩ := e; rfl
  · rw [if_neg hl, if_neg hl]
    cases he : idx.entries.getLast? with
    | none => rfl
    | some e => obtain ⟨⟨sid, key⟩, size⟩ := e; rfl

/-- C2 counterexample: pushing `(s1,k1,100)` twice onto a fresh index
leaves `current_size = 200` while the only present entry has size 100, so
`current_size` does not equal the sum of the present entries' sizes after
every push/pop/delete sequence. -/
theorem size_invariant_counterexample :
    (runIndexOps (MemoryStoreIndex.empty true none)
        [IndexOp.push ("s1") "k1" 100, IndexOp.push ("s1") "k1" 100]).current_size
      = 200 ∧
    entrySum (runIndexOps (MemoryStoreIndex.empty true none)
        [IndexOp.push ("s1") "k1" 100, IndexOp.push ("s1") "k1" 100]).entries
      = 100 ∧
    ¬ sizeInv (runIndexOps (MemoryStoreIndex.empty true none)
        [IndexOp.push ("s1") "k1" 100, IndexOp.push ("s1") "k1" 100]) := by
  refine ⟨by decide, by decide, ?_⟩
  unfold sizeInv
  decide

/-- C2 (amended): for every sequence of push/pop/delete/delete-store
operations on a fresh Store Index in which no `push_key` overwrites an
already-present `(store_id, key)` (the documented re-push sharp edge) and
no `pop_key` underflows, `current_size` equals the sum of the sizes of
the currently present entries after every operation (i.e. after every
prefix of the run). -/
theorem size_invariant_amended (l : Bool) (m : Option Int)
    (p s : List IndexOp)
    (h : goodRun (MemoryStoreIndex.empty l m) (p ++ s) = true) :
    sizeInv (runIndexOps (MemoryStoreIndex.empty l m) p) :=
  sizeInv_runIndexOps rfl (goodRun_append_left h)

/-- C2 witness: a concrete good run (push then pop, followed by a later
delete) whose push/pop prefix satisfies the invariant. -/
theorem size_invariant_amended_witness :
    goodRun (MemoryStoreIndex.empty true none)
      ([IndexOp.push ("s1") "k1" 100, IndexOp.pop] ++ [IndexOp.delete ("s1") "k1"])
      = true ∧
    sizeInv (runIndexOps (MemoryStoreIndex.empty true none)
      [IndexOp.push ("s1") "k1" 100, IndexOp.pop]) :=
  ⟨by decide,
   size_invariant_amended true none [IndexOp.push ("s1") "k1" 100, IndexOp.pop]
     [IndexOp.delete ("s1") "k1"] (by decide)⟩

/-- C3 counterexample: after pushing `(s1,k1,1)`, `(s1,k2,2)` and
re-pushing `(s1,k1)` with size 3, the entry for `(s1,k1)` keeps its
original (front) position — the most-recently-inserted end still holds
`(s1,k2)` — because Python's `OrderedDict.__setitem__` does not move an
existing key; only the size is overwritten and the running total is
inflated additively to 6. -/
theorem push_key_reposition_counterexample :
    repushDemoIndex.entries = [(("s1", "k1"), 3), (("s1", "k2"), 2)] ∧
    repushDemoIndex.entries.getLast? ≠ some (("s1", "k1"), 3) ∧
    repushDemoIndex.current_size = 6 := by
  decide

/-- C3 (amended): when `(store_id, key)` is already present with size
`s_old`, `push_key` with `s_new` overwrites the entry's size IN PLACE —
the key order of the entries is unchanged, so the entry is NOT
repositioned at the most-recently-inserted end — and `current_size`
increases by `s_new` without subtracting `s_old`. -/
theorem push_key_existing_amended (idx : MemoryStoreIndex) (sid key : String)
    (s_old s_new : Nat)
    (hnd : (idx.entries.map Prod.fst).Nodup)
    (h : dictLookup idx.entries (sid, key) = some s_old) :
    (pushKey idx sid key s_new).entries =
      idx.entries.map
        (fun e => if e.1 = (sid, key) then ((sid, key), s_new) else e) ∧
    (pushKey idx sid key s_new).current_size =
      idx.current_size + (s_new : Int) :=
  ⟨dictSet_of_present hnd h s_new, rfl⟩

/-- C3 witness: the amended statement instantiated at the two-push index
with `(s1,k1)` present with size 1 and re-pushed with size 3. -/
theorem push_key_existing_amended_witness :
    (((pushKey (pushKey (MemoryStoreIndex.empty true none) "s1" ("k1") 1)
        "s1" ("k2") 2).entries.map Prod.fst).Nodup ∧
      dictLookup (pushKey (pushKey (MemoryStoreIndex.empty true none)
        "s1" ("k1") 1) "s1" ("k2") 2).entries ("s1", "k1") = some 1) ∧
    ((pushKey (pushKey (pushKey (MemoryStoreIndex.empty true none)
        "s1" ("k1") 1) "s1" ("k2") 2) "s1" ("k1") 3).entries =
      (pushKey (pushKey (MemoryStoreIndex.empty true none) "s1" ("k1") 1)
        "s1" ("k2") 2).entries.map
        (fun e => if e.1 = ("s1", "k1") then (("s1", "k1"), 3) else e) ∧
     (pushKey (pushKey (pushKey (MemoryStoreIndex.empty true none)
        "s1" ("k1") 1) "s1" ("k2") 2) "s1" ("k1") 3).current_size =
      (pushKey (pushKey (MemoryStoreIndex.empty true none) "s1" ("k1") 1)
        "s1" ("k2") 2).current_size + (3 : Int)) :=
  ⟨⟨by decide, by decide⟩,
   push_key_existing_amended _ ("s1") "k1" 1 3 (by decide) (by decide)⟩

/-- C5: `mark_key` of an absent entry leaves the index completely
unchanged; and concretely, pushing `s2/k1(260)`, `s2/k2(220)`,
`s2/k3(210)` on a fresh index and marking `s2/k2` makes the next two
pops avoid `k2` under either configured policy — the marked entry is
returned only by the third pop, after the unmarked entries are
exhausted. -/
theorem mark_key_protection (idx : MemoryStoreIndex) (sid key : String)
    (h : dictLookup idx.entries (sid, key) = none) :
    markKey idx sid key = idx ∧
    popList (markedDemoIndex true) 3 =
      [("s2", "k1", 260), ("s2", "k3", 210), ("s2", "k2", 220)] ∧
    popList (markedDemoIndex false) 3 =
      [("s2", "k3", 210), ("s2", "k1", 260), ("s2", "k2", 220)] := by
  refine ⟨?_, by decide, by decide⟩
  unfold markKey
  rw [h]

/-- C5 witness: the statement instantiated at the three-push demo index
and the absent entry `(s9, k9)`. -/
theorem mark_key_protection_witness :
    dictLookup (markedDemoIndex true).entries ("s9", "k9") = none ∧
    (markKey (markedDemoIndex true) "s9" ("k9") = markedDemoIndex true ∧
     popList (markedDemoIndex true) 3 =
       [("s2", "k1", 260), ("s2", "k3", 210), ("s2", "k2", 220)] ∧
     popList (markedDemoIndex false) 3 =
       [("s2", "k3", 210), ("s2", "k1", 260), ("s2", "k2", 220)]) :=
  ⟨by decide, mark_key_protection (markedDemoIndex true) "s9" ("k9") (by decide)⟩

/-! ## Timing decorator stats -/

theorem foldStats_eq (events : List (Rat × Rat)) :
    foldStats events =
      ((events.map Prod.fst).sum, (events.map Prod.snd).sum, events.length) := by
  unfold foldStats
  suffices h : ∀ init : Rat × Rat × Nat,
      events.foldl (fun s e => updateStats s e.1 e.2) init =
        (init.1 + (events.map Prod.fst).sum,
         init.2.1 + (events.map Prod.snd).sum,
         init.2.2 + events.length) by
    simpa using h (0, 0, 0)
  induction events with
  | nil => intro init; simp
  | cons e rest ih =>
      intro init
      simp only [List.foldl_cons, List.map_cons, List.sum_cons, List.length_cons]
      rw [ih]
      refine Prod.ext ?_ (Prod.ext ?_ ?_) <;> simp [updateStats] <;> ring

/-- C4 counterexample: after a single measured call of payload size 4
taking 2 time units, the exposed tuple is `(2, 4, 1/2, 1)` — the average
latency comes FIRST, the average size SECOND and the third component is
`time_sum / size_sum` — not `(4, 2, 2, 1)` as the claim's
`(average size, average latency, size-sum/time-sum, count)` reading
states: `_update_stats` stores `(size_sum, time_sum, count)` but
`_get_stats` unpacks the stored tuple as `time_sum, size_sum, count`. -/
theorem timing_stats_counterexample :
    getStats (updateStats (0, 0, 0) 4 2) =
      (some 2, some 4, some (1/2 : Rat), 1) ∧
    getStats (updateStats (0, 0, 0) 4 2) ≠
      (some 4, some 2, some (2 : Rat), 1) := by
  have h : getStats (updateStats (0, 0, 0) 4 2) =
      (some 2, some 4, some (1/2 : Rat), 1) := by
    unfold updateStats getStats
    norm_num
  refine ⟨h, ?_⟩
  rw [h]
  simp only [ne_eq, Prod.mk.injEq, Option.some_inj]
  norm_num

/-- C4 (amended): per operation kind, after any list of measured calls
with size deltas `events.map Prod.fst` and time deltas
`events.map Prod.snd`, the exposed 4-tuple is
(average latency = time-sum/count, average size = size-sum/count,
time-sum/size-sum, call count); the first two are not-a-number when the
count is zero and the third is not-a-number when the SIZE sum is zero. -/
theorem timing_stats_amended (events : List (Rat × Rat)) :
    getStats (foldStats events) =
      (if 0 < events.length then
         some ((events.map Prod.snd).sum / (events.length : Rat)) else none,
       if 0 < events.length then
         some ((events.map Prod.fst).sum / (events.length : Rat)) else none,
       if 0 < (events.map Prod.fst).sum then
         some ((events.map Prod.snd).sum / (events.map Prod.fst).sum) else none,
       events.length) := by
  rw [foldStats_eq]
  unfold getStats
  rfl

/-! ## Index-driven Cache Storage -/

theorem dictLookup_dictSet_self {κ α : Type} [DecidableEq κ]
    (l : List (κ × α)) (k : κ) (v : α) :
    dictLookup (dictSet l k v) k = some v := by
  induction l with
  | nil => simp [dictSet, dictLookup]
  | cons e rest ih =>
      obtain ⟨k', v'⟩ := e
      by_cases hk : k' = k
      · simp [dictSet, dictLookup, hk]
      · simp [dictSet, dictLookup, hk, ih]

theorem dictLookup_dictSet_ne {κ α : Type} [DecidableEq κ]
    (l : List (κ × α)) {k k' : κ} (v : α) (h : k' ≠ k) :
    dictLookup (dictSet l k v) k' = dictLookup l k' := by
  induction l with
  | nil => simp [dictSet, dictLookup, Ne.symm h]
  | cons e rest ih =>
      obtain ⟨k'', v'⟩ := e
      by_cases hk : k'' = k
      · subst hk
        simp [dictSet, dictLookup, Ne.symm h]
      · by_cases hk' : k'' = k'
        · subst hk'
          simp [dictSet, dictLookup, hk]
        · simp [dictSet, dictLookup, hk, hk', ih]

theorem getOrOpenStore_lookup (st : IndexedCacheStorage) (sid : String) :
    dictLookup (getOrOpenStore st sid).1.open_stores sid =
      some (getOrOpenStore st sid).2 := by
  unfold getOrOpenStore
  cases h : dictLookup st.open_stores sid with
  | some s => exact h
  | none => exact dictLookup_dictSet_self _ _ _

theorem updateStore_lookup {st : IndexedCacheStorage} {sid : String}
    {s : BackingStore} (h : dictLookup st.open_stores sid = some s)
    (f : BackingStore → BackingStore) :
    dictLookup (updateStore st sid f).open_stores sid = some (f s) := by
  unfold updateStore
  rw [h]
  exact dictLookup_dictSet_self _ _ _

theorem getOrOpenStore_index (st : IndexedCacheStorage) (sid : String) :
    (getOrOpenStore st sid).1.store_index = st.store_index := by
  unfold getOrOpenStore
  cases h : dictLookup st.open_stores sid <;> rfl

theorem updateStore_index (st : IndexedCacheStorage) (sid : String)
    (f : BackingStore → BackingStore) :
    (updateStore st sid f).store_index = st.store_index := by
  unfold updateStore
  cases h : dictLookup st.open_stores sid <;> rfl

theorem getOrOpenStore_max (st : IndexedCacheStorage) (sid : String) :
    (getOrOpenStore st sid).1.max_size = st.max_size := by
  unfold getOrOpenStore
  cases h : dictLookup st.open_stores sid <;> rfl

theorem updateStore_max (st : IndexedCacheStorage) (sid : String)
    (f : BackingStore → BackingStore) :
    (updateStore st sid f).max_size = st.max_size := by
  unfold updateStore
  cases h : dictLookup st.open_stores sid <;> rfl

/-- C6: with a configured `max_size`, a `put_value` whose (supplied or
computed) value size exceeds it returns normally without caching: the
whole Cache Storage state — Store Index, every backing store and the
handle table — is left completely unchanged, and no eviction runs. -/
theorem put_value_oversize_skip (st : IndexedCacheStorage) (sid key : String)
    (v : Value) (value_size : Option Nat) (m : Int)
    (hm : st.max_size = some m)
    (hsz : m < ((value_size.getD v.length : Nat) : Int)) :
    putValueICS st sid key v value_size = (st, true) := by
  unfold putValueICS
  rw [hm]
  exact if_neg (not_le.mpr hsz)

/-- C6 witness: a cache storage with `max_size = 5` and a value of size 7
supplied without an explicit size. -/
theorem put_value_oversize_skip_witness :
    (IndexedCacheStorage.init
        (MemoryStoreIndex.empty true (some 5))).max_size = some 5 ∧
    (5 : Int) < ((Option.none.getD ([0, 1, 2, 3, 4, 5, 6] : Value).length : Nat) : Int) ∧
    putValueICS (IndexedCacheStorage.init (MemoryStoreIndex.empty true (some 5)))
        "s1" ("k1") [0, 1, 2, 3, 4, 5, 6] none =
      (IndexedCacheStorage.init (MemoryStoreIndex.empty true (some 5)), true) :=
  ⟨rfl, by norm_num,
   put_value_oversize_skip _ ("s1") "k1" [0, 1, 2, 3, 4, 5, 6] none 5 rfl
     (by norm_num)⟩

theorem dictRemove_sublist {κ α : Type} [DecidableEq κ] (l : List (κ × α)) (k : κ) :
    (dictRemove l k).Sublist l := by
  induction l with
  | nil => exact List.Sublist.refl _
  | cons e rest ih =>
      obtain ⟨k', v'⟩ := e
      by_cases hk : k' = k
      · simp only [dictRemove, if_pos hk]
        exact List.sublist_cons_of_sublist _ (List.Sublist.refl _)
      · simp only [dictRemove, if_neg hk]
        exact ih.cons₂ _

theorem dictRemove_eq_filter {κ α : Type} [DecidableEq κ] {l : List (κ × α)}
    (hnd : (l.map Prod.fst).Nodup) (k : κ) :
    dictRemove l k = l.filter (fun e => decide (e.1 ≠ k)) := by
  induction l with
  | nil => rfl
  | cons e rest ih =>
      obtain ⟨k', v'⟩ := e
      rw [List.map_cons, List.nodup_cons] at hnd
      by_cases hk : k' = k
      · subst hk
        have h1 : dictRemove ((k', v') :: rest) k' = rest := by
          simp [dictRemove]
        have h2 : List.filter (fun e => decide (e.1 ≠ k')) ((k', v') :: rest)
            = List.filter (fun e => decide (e.1 ≠ k')) rest := by
          rw [List.filter_cons_of_neg]
          simp
        rw [h1, h2]
        exact (List.filter_eq_self.mpr fun e he => by
          simp only [decide_eq_true_eq]
          intro hh
          exact hnd.1 (by rw [← hh]; exact List.mem_map.mpr ⟨e, he, rfl⟩)).symm
      · have h1 : dictRemove ((k', v') :: rest) k = (k', v') :: dictRemove rest k := by
          simp only [dictRemove]
          rw [if_neg hk]
        have h2 : List.filter (fun e => decide (e.1 ≠ k)) ((k', v') :: rest)
            = (k', v') :: List.filter (fun e => decide (e.1 ≠ k)) rest := by
          rw [List.filter_cons_of_pos]
          simpa using hk
        rw [h1, h2, ih hnd.2]

theorem foldl_dictRemove_eq_filter {κ α : Type} [DecidableEq κ] (L : List κ) :
    ∀ (l : List (κ × α)), (l.map Prod.fst).Nodup →
    L.foldl dictRemove l = l.filter (fun e => decide (e.1 ∉ L)) := by
  induction L with
  | nil => intro l _; simp
  | cons k L' ih =>
      intro l hnd
      simp only [List.foldl_cons]
      rw [ih (dictRemove l k)
        (((dictRemove_sublist l k).map Prod.fst).nodup hnd)]
      rw [dictRemove_eq_filter hnd k, List.filter_filter]
      apply List.filter_congr
      intro e _
      simp only [List.mem_cons, not_or, Bool.and_eq_true, decide_eq_true_eq,
        Bool.decide_and]
      rcases Decidable.em (e.1 = k) with hek | hek <;>
        rcases Decidable.em (e.1 ∈ L') with hel | hel <;> simp [hek, hel]

theorem deleteKey_entries (idx : MemoryStoreIndex) (sid key : String) :
    (deleteKey idx sid key).2.entries = dictRemove idx.entries (sid, key) := by
  unfold deleteKey
  cases h : dictLookup idx.entries (sid, key) with
  | some v => rfl
  | none => exact (dictRemove_of_absent h).symm

theorem deleteStoreFold_entries (ks : List IdxKey) :
    ∀ acc : Nat × MemoryStoreIndex,
    ((ks.foldl (fun acc k =>
        let r := deleteKey acc.2 k.1 k.2
        (acc.1 + r.1, r.2)) acc).2).entries
      = ks.foldl dictRemove acc.2.entries := by
  induction ks with
  | nil => intro _; rfl
  | cons k rest ih =>
      intro acc
      simp only [List.foldl_cons]
      rw [ih]
      congr 1
      exact deleteKey_entries acc.2 k.1 k.2

theorem deleteStoreIdx_entries {idx : MemoryStoreIndex} (sid : String)
    (hnd : (idx.entries.map Prod.fst).Nodup) :
    (deleteStoreIdx idx sid).2.entries =
      idx.entries.filter (fun e => decide (e.1.1 ≠ sid)) := by
  unfold deleteStoreIdx
  rw [deleteStoreFold_entries]
  rw [foldl_dictRemove_eq_filter _ _ hnd]
  apply List.filter_congr
  intro e he
  simp only [decide_eq_decide]
  constructor
  · intro hnot hsid
    exact hnot (List.mem_map_of_mem Prod.fst
      (List.mem_filter.mpr ⟨he, by simpa using hsid⟩))
  · intro hne hmem
    obtain ⟨e', he', heq⟩ := List.mem_map.mp hmem
    have h2 := (List.mem_filter.mp he').2
    simp only [decide_eq_true_eq] at h2
    exact hne (heq ▸ h2)

/-- C8: `delete_store` clears the backing store's contents, removes all
index entries for the store, and closes the backing-store handle — in the
source's order — and the `finally` closes the handle on every exit path:
even when the clear step raises (`clearOk = false`), the handle for
`store_id` held in the handle table is closed, so no open handle for
`store_id` remains (the closed handle object itself stays in the table);
when clear raises, the index is untouched and the error propagates. The
`close_store` helper is spec-modelled (see `BackingStore`). -/
theorem delete_store_release (st : IndexedCacheStorage) (sid : String)
    (clearOk : Bool)
    (hnd : (st.store_index.entries.map Prod.fst).Nodup) :
    ((dictLookup (deleteStoreICS st sid clearOk).1.open_stores sid).map
        BackingStore.closed) = some true ∧
    (deleteStoreICS st sid clearOk).2 = clearOk ∧
    (clearOk = true →
      ((dictLookup (deleteStoreICS st sid clearOk).1.open_stores sid).map
          BackingStore.contents) = some [] ∧
      (deleteStoreICS st sid clearOk).1.store_index.entries =
        st.store_index.entries.filter (fun e => decide (e.1.1 ≠ sid))) ∧
    (clearOk = false →
      (deleteStoreICS st sid clearOk).1.store_index = st.store_index) := by
  have hlook := getOrOpenStore_lookup st sid
  cases clearOk
  · have he : deleteStoreICS st sid false =
        (updateStore (getOrOpenStore st sid).1 sid
          (fun b => { b with closed := true }), false) := rfl
    rw [he]
    refine ⟨?_, rfl, fun h => by simp at h, fun _ => ?_⟩
    · rw [updateStore_lookup hlook]
      rfl
    · rw [updateStore_index, getOrOpenStore_index]
  · have he : deleteStoreICS st sid true =
        (updateStore
          { updateStore (getOrOpenStore st sid).1 sid
              (fun b => { b with contents := [] }) with
            store_index := (deleteStoreIdx
              (updateStore (getOrOpenStore st sid).1 sid
                (fun b => { b with contents := [] })).store_index sid).2 }
          sid (fun b => { b with closed := true }), true) := rfl
    rw [he]
    have hlook2 : dictLookup
        { updateStore (getOrOpenStore st sid).1 sid
            (fun b => { b with contents := [] }) with
          store_index := (deleteStoreIdx
            (updateStore (getOrOpenStore st sid).1 sid
              (fun b => { b with contents := [] })).store_index sid).2
          }.open_stores sid =
        some { (getOrOpenStore st sid).2 with contents := [] } :=
      updateStore_lookup hlook _
    have hidx : (updateStore (getOrOpenStore st sid).1 sid
        (fun b => { b with contents := [] })).store_index = st.store_index := by
      rw [updateStore_index, getOrOpenStore_index]
    refine ⟨?_, rfl, fun _ => ⟨?_, ?_⟩, fun h => by simp at h⟩
    · rw [updateStore_lookup hlook2]
      rfl
    · rw [updateStore_lookup hlook2]
      rfl
    · rw [updateStore_index]
      show ((deleteStoreIdx (updateStore (getOrOpenStore st sid).1 sid
        (fun b => { b with contents := [] })).store_index sid).2).entries = _
      rw [hidx]
      exact deleteStoreIdx_entries sid hnd

/-- C8 witness: `delete_store` on the demo storage with a successful
clear step: handle closed and emptied, index entries of `s` removed. -/
theorem delete_store_release_witness :
    ((deleteStoreDemo.store_index.entries.map Prod.fst).Nodup) ∧
    (((dictLookup (deleteStoreICS deleteStoreDemo ("s") true).1.open_stores
        "s").map BackingStore.closed) = some true ∧
     (deleteStoreICS deleteStoreDemo ("s") true).2 = true ∧
     (true = true →
       ((dictLookup (deleteStoreICS deleteStoreDemo ("s") true).1.open_stores
           "s").map BackingStore.contents) = some [] ∧
       (deleteStoreICS deleteStoreDemo ("s") true).1.store_index.entries =
         deleteStoreDemo.store_index.entries.filter
           (fun e => decide (e.1.1 ≠ "s"))) ∧
     (true = false →
       (deleteStoreICS deleteStoreDemo ("s") true).1.store_index =
         deleteStoreDemo.store_index)) :=
  ⟨by decide, delete_store_release deleteStoreDemo ("s") true (by decide)⟩

/-! ## Cached Store: key-set snapshot and read-through -/

/-- C7 counterexample: memoize the key set (`["a"]`), then `set` a key
that is NOT yet cached (`b`): the origin now holds `a` and `b`, but the
set left the memoized snapshot in place (`__setitem__` only invalidates
when the key was already cached), so the next `keys()` returns the stale
`["a"]` instead of the origin's current key set. -/
theorem keys_snapshot_counterexample :
    (keysCS ((setItemCS (keysCS staleKeysDemo).2 ("b") [1]).1)).1 = ["a"] ∧
    ((setItemCS (keysCS staleKeysDemo).2 ("b") [1]).1).origin.map Prod.fst =
      ["a", "b"] ∧
    (keysCS ((setItemCS (keysCS staleKeysDemo).2 ("b") [1]).1)).1 ≠
      ((setItemCS (keysCS staleKeysDemo).2 ("b") [1]).1).origin.map Prod.fst := by
  refine ⟨by decide, by decide, by decide⟩

/-- C7 (amended): `keys()`/length/containment reflect the origin store's
key set whenever no snapshot is memoized; the memoized snapshot is
invalidated by a successful `delete`, by a successful `clear`, and by a
`set` whose key was already present in the cache storage — but a `set`
of a key NOT present in the cache storage writes the origin and leaves
the memoized snapshot in place (so a subsequent `keys()` can be stale). -/
theorem keys_snapshot_amended (st : CachedStore) (key : String)
    (v w : Value) :
    (st.cached_keys = none → (keysCS st).1 = st.origin.map Prod.fst) ∧
    (dictLookup st.origin key = some w →
      (delItemCS st key).1.cached_keys = none ∧ (delItemCS st key).2 = true) ∧
    ((clearCS st true).1.cached_keys = none) ∧
    ((hasValueICS st.cache st.store_id key).1 = true →
      (putValueICS (hasValueICS st.cache st.store_id key).2
          st.store_id key v none).2 = true →
      (setItemCS st key v).1.cached_keys = none) ∧
    ((hasValueICS st.cache st.store_id key).1 = false →
      (setItemCS st key v).1.cached_keys = st.cached_keys ∧
      (setItemCS st key v).1.origin = dictSet st.origin key v ∧
      (setItemCS st key v).2 = true) := by
  refine ⟨?_, ?_, ?_, ?_, ?_⟩
  · intro h
    unfold keysCS
    rw [h]
  · intro h
    unfold delItemCS
    rw [h]
    exact ⟨rfl, rfl⟩
  · rfl
  · intro h1 h2
    simp only [setItemCS]
    rw [h1, h2]
    simp
  · intro h1
    simp only [setItemCS]
    rw [h1]
    simp

/-- C7 witness: the amended statement instantiated at a store whose key
`a` is cached (so the `set` branch that invalidates is exercised). -/
theorem keys_snapshot_amended_witness :
    (cachedKeyDemo.cached_keys = none →
      (keysCS cachedKeyDemo).1 = cachedKeyDemo.origin.map Prod.fst) ∧
    (dictLookup cachedKeyDemo.origin ("a") = some [0] →
      (delItemCS cachedKeyDemo ("a")).1.cached_keys = none ∧
      (delItemCS cachedKeyDemo ("a")).2 = true) ∧
    ((clearCS cachedKeyDemo true).1.cached_keys = none) ∧
    ((hasValueICS cachedKeyDemo.cache cachedKeyDemo.store_id ("a")).1 = true →
      (putValueICS (hasValueICS cachedKeyDemo.cache cachedKeyDemo.store_id ("a")).2
          cachedKeyDemo.store_id ("a") [1] none).2 = true →
      (setItemCS cachedKeyDemo ("a") [1]).1.cached_keys = none) ∧
    ((hasValueICS cachedKeyDemo.cache cachedKeyDemo.store_id ("a")).1 = false →
      (setItemCS cachedKeyDemo ("a") [1]).1.cached_keys = cachedKeyDemo.cached_keys ∧
      (setItemCS cachedKeyDemo ("a") [1]).1.origin =
        dictSet cachedKeyDemo.origin ("a") [1] ∧
      (setItemCS cachedKeyDemo ("a") [1]).2 = true) :=
  keys_snapshot_amended cachedKeyDemo ("a") [1] [0]

theorem getValueICS_eq (st : IndexedCacheStorage) (sid key : String) :
    getValueICS st sid key =
      match dictLookup (getOrOpenStore st sid).2.contents key with
      | none => (none, (getOrOpenStore st sid).1)
      | some v => (some v, { (getOrOpenStore st sid).1 with
          store_index := markKey (getOrOpenStore st sid).1.store_index sid key }) :=
  rfl

theorem getValueICS_max (st : IndexedCacheStorage) (sid key : String) :
    (getValueICS st sid key).2.max_size = st.max_size := by
  rw [getValueICS_eq]
  cases h : dictLookup (getOrOpenStore st sid).2.contents key <;>
    exact getOrOpenStore_max st sid

theorem putValueICS_unbounded (st : IndexedCacheStorage) (sid key : String)
    (v : Value) (osz : Option Nat) (h : st.max_size = none) :
    putValueICS st sid key v osz =
      ({ updateStore (getOrOpenStore st sid).1 sid
          (fun b => { b with contents := dictSet b.contents key v }) with
         store_index := pushKey
           (updateStore (getOrOpenStore st sid).1 sid
             (fun b => { b with contents := dictSet b.contents key v })).store_index
           sid key (osz.getD v.length) }, true) := by
  simp only [putValueICS, accommodateSpace, h]
  rw [if_pos trivial]

theorem putValueICS_written (st : IndexedCacheStorage) (sid key : String)
    (v : Value) (h : st.max_size = none) :
    ((dictLookup (putValueICS st sid key v none).1.open_stores sid).map
      (fun b => dictLookup b.contents key)) = some (some v) := by
  rw [putValueICS_unbounded st sid key v none h]
  have hl := updateStore_lookup (getOrOpenStore_lookup st sid)
    (fun b => { b with contents := dictSet b.contents key v })
  show ((dictLookup (updateStore (getOrOpenStore st sid).1 sid
      (fun b => { b with contents := dictSet b.contents key v })).open_stores
      sid).map (fun b => dictLookup b.contents key)) = some (some v)
  rw [hl]
  simp [dictLookup_dictSet_self]

/-- C9: with no admission filter configured, a `get` of a key absent from
the cache fetches the key from the origin store twice (the read log grows
by two entries), counts one miss, and the value returned and written into
the cache is the one obtained by the second origin fetch (which, the
origin being unchanged between the two sequential fetches, is the
origin's current value for the key). Stated for an unbounded cache
storage, where the admitted write always lands. -/
theorem read_through_double_fetch (st : CachedStore) (key : String) (v : Value)
    (hf : st.item_filter = none)
    (hmiss : (getValueICS st.cache st.store_id key).1 = none)
    (hor : dictLookup st.origin key = some v)
    (hmax : st.cache.max_size = none) :
    (getItemCS st key).1 = some v ∧
    (getItemCS st key).2.origin_reads = st.origin_reads ++ [key, key] ∧
    (getItemCS st key).2.miss_count = st.miss_count + 1 ∧
    (getItemCS st key).2.cached_keys = none ∧
    ((dictLookup (getItemCS st key).2.cache.open_stores st.store_id).map
        (fun b => dictLookup b.contents key)) = some (some v) := by
  have hc1max : (getValueICS st.cache st.store_id key).2.max_size = none := by
    rw [getValueICS_max]
    exact hmax
  have hputeq := putValueICS_unbounded (getValueICS st.cache st.store_id key).2
    st.store_id key v none hc1max
  have hg : getValueICS st.cache st.store_id key =
      (none, (getValueICS st.cache st.store_id key).2) := Prod.ext hmiss rfl
  have hfull : getItemCS st key =
      (some v,
       { st with
         cache := (putValueICS (getValueICS st.cache st.store_id key).2
           st.store_id key v none).1
         origin_reads := st.origin_reads ++ [key] ++ [key]
         miss_count := st.miss_count + 1
         cached_keys := none }) := by
    unfold getItemCS
    rw [hg]
    simp only [hor, hf, hputeq]
    rw [if_pos trivial]
  refine ⟨by rw [hfull], ?_, by rw [hfull], by rw [hfull], ?_⟩
  · rw [hfull]
    simp
  · rw [hfull]
    exact putValueICS_written (getValueICS st.cache st.store_id key).2
      st.store_id key v hc1max

/-- C9 witness: a miss on key `a` of the demo store fetches the origin
twice and caches the second fetch's value. -/
theorem read_through_double_fetch_witness :
    (staleKeysDemo.item_filter = none ∧
     (getValueICS staleKeysDemo.cache staleKeysDemo.store_id ("a")).1 = none ∧
     dictLookup staleKeysDemo.origin ("a") = some [0] ∧
     staleKeysDemo.cache.max_size = none) ∧
    ((getItemCS staleKeysDemo ("a")).1 = some [0] ∧
     (getItemCS staleKeysDemo ("a")).2.origin_reads =
       staleKeysDemo.origin_reads ++ ["a", "a"] ∧
     (getItemCS staleKeysDemo ("a")).2.miss_count =
       staleKeysDemo.miss_count + 1 ∧
     (getItemCS staleKeysDemo ("a")).2.cached_keys = none ∧
     ((dictLookup (getItemCS staleKeysDemo ("a")).2.cache.open_stores
         staleKeysDemo.store_id).map
       (fun b => dictLookup b.contents ("a"))) = some (some [0])) :=
  ⟨⟨rfl, by decide, by decide, rfl⟩,
   read_through_double_fetch staleKeysDemo ("a") [0] rfl (by decide) (by decide) rfl⟩

/-! ## Budget enforcement (claim on reachable Cache Storage states) -/

theorem markKey_current (idx : MemoryStoreIndex) (sid key : String) :
    (markKey idx sid key).current_size = idx.current_size := by
  unfold markKey
  cases h : dictLookup idx.entries (sid, key) <;> rfl

theorem hasValueICS_state (st : IndexedCacheStorage) (sid key : String) :
    (hasValueICS st sid key).2.store_index = st.store_index ∧
    (hasValueICS st sid key).2.max_size = st.max_size :=
  ⟨getOrOpenStore_index st sid, getOrOpenStore_max st sid⟩

theorem getValueICS_current (st : IndexedCacheStorage) (sid key : String) :
    (getValueICS st sid key).2.store_index.current_size =
      st.store_index.current_size := by
  rw [getValueICS_eq]
  cases h : dictLookup (getOrOpenStore st sid).2.contents key
  · exact congrArg MemoryStoreIndex.current_size (getOrOpenStore_index st sid)
  · show (markKey (getOrOpenStore st sid).1.store_index sid key).current_size = _
    rw [markKey_current]
    exact congrArg MemoryStoreIndex.current_size (getOrOpenStore_index st sid)

theorem deleteKey_current_le (idx : MemoryStoreIndex) (sid key : String) :
    (deleteKey idx sid key).2.current_size ≤ idx.current_size := by
  unfold deleteKey
  cases h : dictLookup idx.entries (sid, key)
  · exact le_refl _
  · show idx.current_size - _ ≤ idx.current_size
    omega

theorem deleteValueICS_spec (st : IndexedCacheStorage) (sid key : String) :
    (deleteValueICS st sid key).2.store_index.current_size ≤
      st.store_index.current_size ∧
    (deleteValueICS st sid key).2.max_size = st.max_size := by
  cases hp : (dictLookup (getOrOpenStore st sid).2.contents key).isSome
  · have he : deleteValueICS st sid key =
        (false, { (getOrOpenStore st sid).1 with
          store_index :=
            (deleteKey (getOrOpenStore st sid).1.store_index sid key).2 }) := by
      simp only [deleteValueICS, hp]
      rfl
    rw [he]
    refine ⟨le_trans (deleteKey_current_le _ sid key) ?_, ?_⟩
    · rw [getOrOpenStore_index]
    · show (getOrOpenStore st sid).1.max_size = st.max_size
      rw [getOrOpenStore_max]
  · have he : deleteValueICS st sid key =
        (true, { updateStore (getOrOpenStore st sid).1 sid
            (fun b => { b with contents := dictRemove b.contents key }) with
          store_index :=
            (deleteKey (updateStore (getOrOpenStore st sid).1 sid
              (fun b => { b with contents := dictRemove b.contents key })).store_index
              sid key).2 }) := by
      simp only [deleteValueICS, hp]
      rfl
    rw [he]
    refine ⟨le_trans (deleteKey_current_le _ sid key) ?_, ?_⟩
    · rw [updateStore_index, getOrOpenStore_index]
    · show (updateStore (getOrOpenStore st sid).1 sid
          (fun b => { b with contents := dictRemove b.contents key })).max_size
          = st.max_size
      rw [updateStore_max, getOrOpenStore_max]

theorem accommodateLoop_spec (fuel : Nat) :
    ∀ (st : IndexedCacheStorage) (cur new m : Int)
      (st' : IndexedCacheStorage),
    st.store_index.current_size ≤ cur →
    accommodateLoop fuel st cur new m = (st', true) →
    st'.store_index.current_size + new ≤ m ∧ st'.max_size = st.max_size := by
  induction fuel with
  | zero =>
      intro st cur new m st' hle h
      unfold accommodateLoop at h
      split at h
      · injection h with h1 h2
        subst h1
        rename_i hc
        exact ⟨by omega, rfl⟩
      · injection h with h1 h2
        cases h2
  | succ fuel ih =>
      intro st cur new m st' hle h
      unfold accommodateLoop at h
      split at h
      · injection h with h1 h2
        subst h1
        rename_i hc
        exact ⟨by omega, rfl⟩
      · rename_i hc
        split at h
        · injection h with h1 h2
          cases h2
        · rename_i sid key size idx' hpop
          obtain ⟨hpc0, _⟩ := popKey_sizes hpop
          have hpc : idx'.current_size =
              st.store_index.current_size - (size : Int) := hpc0
          dsimp only at h
          split at h
          · have hres := ih _ _ _ _ _ ?hle2 h
            case hle2 =>
              rw [updateStore_index, getOrOpenStore_index]
              show idx'.current_size ≤ cur - (size : Int)
              omega
            refine ⟨hres.1, ?_⟩
            rw [hres.2, updateStore_max, getOrOpenStore_max]
          · have hres := ih _ _ _ _ _ ?hle3 h
            case hle3 =>
              rw [getOrOpenStore_index]
              show idx'.current_size ≤ cur
              have hsz : (0 : Int) ≤ (size : Int) := Int.ofNat_nonneg size
              omega
            refine ⟨hres.1, ?_⟩
            rw [hres.2, getOrOpenStore_max]

theorem accommodateSpace_spec {st st' : IndexedCacheStorage} {new m : Int}
    (hmax : st.max_size = some m)
    (h : accommodateSpace st new = (st', true)) :
    st'.store_index.current_size + new ≤ m ∧ st'.max_size = st.max_size := by
  unfold accommodateSpace at h
  rw [hmax] at h
  exact accommodateLoop_spec _ _ _ _ _ _ (le_refl _) h

theorem putValueICS_spec {st st' : IndexedCacheStorage} {sid key : String}
    {v : Value} {osz : Option Nat} {m : Int}
    (hmax : st.max_size = some m)
    (hcur : st.store_index.current_size ≤ m)
    (h : putValueICS st sid key v osz = (st', true)) :
    st'.store_index.current_size ≤ m ∧ st'.max_size = some m := by
  unfold putValueICS at h
  rw [hmax] at h
  dsimp only at h
  split at h
  · split at h
    · rename_i hvm hacc
      injection h with h1 _
      subst h1
      have hsp := accommodateSpace_spec hmax (Prod.ext rfl hacc)
      constructor
      · show (updateStore (getOrOpenStore
            (accommodateSpace st ((osz.getD v.length : Nat) : Int)).1 sid).1 sid
              (fun b => { b with contents := dictSet b.contents key v })).store_index.current_size
            + ((osz.getD v.length : Nat) : Int) ≤ m
        rw [updateStore_index, getOrOpenStore_index]
        exact hsp.1
      · show (updateStore (getOrOpenStore
            (accommodateSpace st ((osz.getD v.length : Nat) : Int)).1 sid).1 sid
              (fun b => { b with contents := dictSet b.contents key v })).max_size
            = some m
        rw [updateStore_max, getOrOpenStore_max, hsp.2, hmax]
    · injection h with _ h2
      cases h2
  · injection h with h1 _
    subst h1
    exact ⟨hcur, hmax⟩

theorem runCacheOp_budget {m : Int} {st st' : IndexedCacheStorage}
    {op : CacheOp}
    (hmax : st.max_size = some m)
    (hcur : st.store_index.current_size ≤ m)
    (h : runCacheOp st op = some st') :
    st'.max_size = some m ∧ st'.store_index.current_size ≤ m := by
  cases op with
  | has sid key =>
      simp only [runCacheOp] at h
      injection h with h1
      subst h1
      refine ⟨(hasValueICS_state st sid key).2.trans hmax, ?_⟩
      rw [congrArg MemoryStoreIndex.current_size (hasValueICS_state st sid key).1]
      exact hcur
  | get sid key =>
      simp only [runCacheOp] at h
      injection h with h1
      subst h1
      exact ⟨(getValueICS_max st sid key).trans hmax,
        by rw [getValueICS_current]; exact hcur⟩
  | put sid key v osz =>
      simp only [runCacheOp] at h
      split at h
      · rename_i hflag
        injection h with h1
        subst h1
        have hs := putValueICS_spec hmax hcur (Prod.ext rfl hflag)
        exact ⟨hs.2, hs.1⟩
      · cases h
  | del sid key =>
      simp only [runCacheOp] at h
      injection h with h1
      subst h1
      have hs := deleteValueICS_spec st sid key
      exact ⟨hs.2.trans hmax, le_trans hs.1 hcur⟩

theorem runCacheOps_budget {m : Int} {ops : List CacheOp} :
    ∀ {st st' : IndexedCacheStorage},
    st.max_size = some m → st.store_index.current_size ≤ m →
    runCacheOps st ops = some st' →
    st'.max_size = some m ∧ st'.store_index.current_size ≤ m := by
  induction ops with
  | nil =>
      intro st st' h1 h2 h
      injection h with h
      subst h
      exact ⟨h1, h2⟩
  | cons op rest ih =>
      intro st st' h1 h2 h
      simp only [runCacheOps] at h
      cases hop : runCacheOp st op with
      | none => rw [hop] at h; cases h
      | some stm =>
          rw [hop] at h
          obtain ⟨g1, g2⟩ := runCacheOp_budget h1 h2 hop
          exact ih g1 g2 h

/-- C10: starting from a fresh index-driven Cache Storage whose Store
Index is empty with configured `max_size = m ≥ 0`, every state reached by
a sequence of has/get/put/delete operations in which each `put_value`
returned normally keeps the Store Index's `current_size` at most `m`:
the accommodation loop frees enough budget before every admitted
insertion, oversize values are skipped, and no other operation increases
the running total. -/
theorem budget_enforced (l : Bool) (m : Int) (hm : 0 ≤ m)
    (ops : List CacheOp) (st' : IndexedCacheStorage)
    (h : runCacheOps
      (IndexedCacheStorage.init (MemoryStoreIndex.empty l (some m))) ops
      = some st') :
    st'.store_index.current_size ≤ m :=
  (runCacheOps_budget rfl hm h).2

/-- C10 witness: the demo sequence with budget 5 (forcing one eviction)
runs normally and ends with `current_size ≤ 5`. -/
theorem budget_enforced_witness :
    ((0 : Int) ≤ 5 ∧
     runCacheOps
       (IndexedCacheStorage.init (MemoryStoreIndex.empty true (some 5)))
       budgetDemoOps
       = some ((runCacheOps
           (IndexedCacheStorage.init (MemoryStoreIndex.empty true (some 5)))
           budgetDemoOps).getD
             (IndexedCacheStorage.init (MemoryStoreIndex.empty true (some 5))))) ∧
    ((runCacheOps
        (IndexedCacheStorage.init (MemoryStoreIndex.empty true (some 5)))
        budgetDemoOps).getD
          (IndexedCacheStorage.init
            (MemoryStoreIndex.empty true (some 5)))).store_index.current_size
      ≤ 5 :=
  ⟨⟨by norm_num, by decide⟩,
   budget_enforced true 5 (by norm_num) budgetDemoOps _ (by decide)⟩
